import Mathlib

/-!
Verification development for a retrieval (RAG) pipeline: a text splitter,
an in-memory vector index with cosine-similarity search, ingestion routes
(pasted text, uploaded file, YouTube transcript) and a query route.

The HTTP route handlers and the lazily created shared vector store are
translated directly from the TypeScript source (`services/langchain.ts` and
the `app/api` route files).  The vector-index internals and the recursive
character splitter live in third-party libraries in the running system; they
are modelled from the specification where noted, with a doc comment starting
`Modelled from the spec:`.
-/

namespace Rag

/-! ## JavaScript-style string helpers (structural, kernel-evaluable) -/

/-- Model of JavaScript `String.prototype.trim`: drop whitespace characters
from both ends of the string. -/
def jsTrim (s : String) : String :=
  (((s.toList.dropWhile Char.isWhitespace).reverse.dropWhile
      Char.isWhitespace).reverse).asString

/-- Character-list scan for splitting on a non-empty separator, with fuel for
structural termination.  `cur` accumulates the current piece in reverse. -/
def splitOnSepGo (sep : List Char) : Nat → List Char → List Char → List (List Char)
  | _, [], cur => [cur.reverse]
  | 0, l, cur => [cur.reverse ++ l]
  | fuel + 1, c :: cs, cur =>
    if sep.isPrefixOf (c :: cs) then
      cur.reverse :: splitOnSepGo sep fuel ((c :: cs).drop sep.length) []
    else
      splitOnSepGo sep fuel cs (c :: cur)

/-- Split a character list on every occurrence of a separator; the empty
separator splits into single characters (JavaScript `split("")`). -/
def splitOnSep (sep : List Char) (l : List Char) : List (List Char) :=
  if sep.isEmpty then l.map (fun c => [c]) else splitOnSepGo sep l.length l []

/-! ## Splitter -/

/-- Modelled from the spec: the separator list of the recursive character
splitter (the splitter itself is library code, not under `src/`), tried from
coarsest to finest; the empty string is the split-anywhere last resort. -/
def separators : List (List Char) :=
  [('\n' :: '\n' :: []), ('\n' :: []), ('.' :: ' ' :: []), (' ' :: []), []]

/-- Modelled from the spec: the hard-cut fallback used when no separator
remains, chopping at `chunkSize` boundaries.  Fuel-based for structural
termination. -/
def hardCut (size : Nat) : Nat → List Char → List (List Char)
  | _, [] => []
  | 0, l => [l]
  | fuel + 1, l => l.take size :: hardCut size fuel (l.drop size)

/-- The trailing `n` characters of a piece, used to carry chunk overlap. -/
def takeLast (n : Nat) (l : List Char) : List Char :=
  l.drop (l.length - n)

/-- Modelled from the spec: greedy packing of pieces into chunks of at most
`size` characters, rejoining pieces with the separator, carrying the trailing
`overlap` characters of an emitted chunk into the next buffer; pieces already
recursively split (the `Sum.inr` case) are flushed as ready chunks. -/
def packPieces (size overlap : Nat) (sep : List Char) :
    List (List Char ⊕ List (List Char)) → List Char → List (List Char)
  | [], buf => if buf.isEmpty then [] else [buf]
  | (Sum.inl p) :: rest, buf =>
    if buf.isEmpty then packPieces size overlap sep rest p
    else if buf.length + sep.length + p.length ≤ size then
      packPieces size overlap sep rest (buf ++ sep ++ p)
    else
      buf :: packPieces size overlap sep rest (takeLast overlap buf ++ sep ++ p)
  | (Sum.inr chunks) :: rest, buf =>
    (if buf.isEmpty then [] else [buf]) ++ chunks ++ packPieces size overlap sep rest []

/-- Modelled from the spec: one level of recursive splitting.  For the current
separator, split into pieces; pieces that fit are packed greedily, a piece
exceeding `size` is recursively split with the next finer separator; when no
separator remains, hard-cut.  Fuel decreases on each recursion step. -/
def goSep (size overlap : Nat) : Nat → List (List Char) → List Char → List (List Char)
  | 0, _, t => [t]
  | _ + 1, [], t => hardCut size t.length t
  | fuel + 1, sep :: rest, t =>
    packPieces size overlap sep
      (((splitOnSep sep t).filter (fun p => ¬ p.isEmpty)).map
        (fun p => if p.length ≤ size then Sum.inl p else Sum.inr (goSep size overlap fuel rest p)))
      []

/-- Modelled from the spec: `split(text, chunkSize, chunkOverlap)` of the
recursive character splitter.  An input that is empty after trimming yields an
empty sequence; chunks are returned in text order. -/
def recursiveSplit (size overlap : Nat) (text : String) : List String :=
  if jsTrim text = "" then []
  else (goSep size overlap (separators.length + 1) separators text.toList).map List.asString

/-! ## YouTube transcript fetcher (from the route source) -/

/-- A JSON value as delivered by `Response.json()`, with just enough structure
to model the transcript route's checks and conversions. -/
inductive JValue where
  | jnull : JValue
  | jbool : Bool → JValue
  | jnum : Int → JValue
  | jstr : String → JValue
  | jarr : List JValue → JValue
  | jobj : List (String × JValue) → JValue

/-- Fuel-based worker for `jsString`; the fuel only bounds the nesting depth
of arrays and is chosen large enough at the call site. -/
def jsStringGo : Nat → JValue → String
  | _, .jnull => "null"
  | _, .jbool true => "true"
  | _, .jbool false => "false"
  | _, .jnum n => toString n
  | _, .jstr s => s
  | 0, .jarr _ => ""
  | fuel + 1, .jarr xs => String.intercalate "," (xs.map fun x =>
      match x with
      | .jnull => ""
      | y => jsStringGo fuel y)
  | _, .jobj _ => "[object Object]"

/-- Model of JavaScript `String(x)` applied to a JSON value (arrays stringify
their elements joined with commas, objects render as `[object Object]`).  The
fuel of 1000 only limits the array nesting depth that renders. -/
def jsString (v : JValue) : String := jsStringGo 1000 v

/-- From the YouTube route: the text extracted from one transcript array item,
`typeof item === "object" && item !== null && "text" in item ?
String(item.text ?? "") : ""`.  Arrays are `typeof "object"` in JavaScript but
have no `text` property; a `null` text value falls back to the empty string. -/
def itemText : JValue → String
  | .jobj kvs =>
    match kvs.lookup "text" with
    | none => ""
    | some .jnull => ""
    | some v => jsString v
  | _ => ""

/-- Does the regex `[?&]v=([^&]+)` match at this position? -/
def vMatchAt (c : Char) (cs : List Char) : Bool :=
  (c = '?' || c = '&') &&
    (match cs with
     | 'v' :: '=' :: d :: _ => d ≠ '&'
     | _ => false)

/-- Scan for the first match of the regex `[?&]v=([^&]+)`: a `?` or `&`
followed by `v=` and at least one non-`&` character; the capture is the
maximal run of non-`&` characters. -/
def scanVParam : List Char → Option (List Char)
  | [] => none
  | c :: cs =>
    if vMatchAt c cs then some ((cs.drop 2).takeWhile (fun d => d ≠ '&'))
    else scanVParam cs

/-- Does the regex `youtu.be\/([^?]+)` match at this position? -/
def ytMatchAt (l : List Char) : Bool :=
  ("youtu.be/".toList).isPrefixOf l &&
    (match l.drop 9 with
     | d :: _ => d ≠ '?'
     | [] => false)

/-- Scan for the first match of the regex `youtu.be\/([^?]+)`: the literal
`youtu.be/` followed by at least one non-`?` character; the capture is the
maximal run of non-`?` characters. -/
def scanYoutuBe : List Char → Option (List Char)
  | [] => none
  | c :: cs =>
    if ytMatchAt (c :: cs) then some (((c :: cs).drop 9).takeWhile (fun d => d ≠ '?'))
    else scanYoutuBe cs

/-- From the YouTube route: extract a video id from the URL, trying the
`[?&]v=([^&]+)` pattern first and falling back to `youtu.be\/([^?]+)`. -/
def extractVideoId (url : String) : Option String :=
  match scanVParam url.toList with
  | some l => some l.asString
  | none => (scanYoutuBe url.toList).map List.asString

/-- The part of the transcript service's HTTP response that the route
inspects: the ok flag and the parsed JSON body. -/
structure TranscriptResponse where
  ok : Bool
  body : JValue

/-- From the YouTube route: `fetchTranscriptFromYouTube`, given the URL and
the transcript service's response.  Fails when no video id can be extracted,
the response is not ok, or the body is not an array; otherwise joins the
items' text fields with single spaces. -/
def fetchTranscriptFromYouTube (url : String) (resp : TranscriptResponse) :
    Except String String :=
  match extractVideoId url with
  | none => .error "Invalid YouTube URL"
  | some _ =>
    if resp.ok = false then .error "Transcript not available"
    else
      match resp.body with
      | .jarr items => .ok (String.intercalate " " (items.map itemText))
      | _ => .error "Unexpected transcript format"

/-- A chunk of source text with its metadata, as produced by the splitter. -/
structure Chunk where
  content : String
  metadata : List (String × String) := []
deriving DecidableEq, Repr

/-- From `services/langchain.ts`: `splitToDocuments` runs the recursive
character splitter with the fixed configuration chunkSize = 1000 and
chunkOverlap = 200. -/
def splitToDocuments (text : String) : List Chunk :=
  (recursiveSplit 1000 200 text).map (fun s => { content := s })

/-! ## Vector index

The vector store used by `services/langchain.ts` is library code, not under
`src/`; the index data model and its search are modelled from the spec.
Vector components are idealized as integers (the spec idealizes embedding
floats as plain numbers); a cosine score is represented exactly by the triple
of its dot product and the two squared magnitudes. -/

/-- Dot product of two vectors, taken over the common length. -/
def dotProd : List ℤ → List ℤ → ℤ
  | [], _ => 0
  | _, [] => 0
  | a :: as, b :: bs => a * b + dotProd as bs

/-- Squared magnitude of a vector. -/
def normSq (v : List ℤ) : ℤ := dotProd v v

/-- Modelled from the spec: an index record `{ id, vector, chunk }`, with the
opaque sequential id assigned on `add`. -/
structure IndexRecord where
  id : Nat
  vector : List ℤ
  chunk : Chunk
deriving DecidableEq, Repr

/-- Modelled from the spec: the vector index owns an ordered collection of
records (insertion order = id order) and the next sequential id. -/
structure VectorIndex where
  records : List IndexRecord
  nextId : Nat
deriving DecidableEq, Repr

/-- The empty vector index. -/
def VectorIndex.emptyIndex : VectorIndex := { records := [], nextId := 0 }

/-- Modelled from the spec: `add` appends a record with the next sequential
id; it never rejects, in particular not on duplicate content. -/
def VectorIndex.add (idx : VectorIndex) (v : List ℤ) (c : Chunk) : VectorIndex :=
  { records := idx.records ++ [{ id := idx.nextId, vector := v, chunk := c }],
    nextId := idx.nextId + 1 }

/-- Modelled from the spec: `addBatch` is repeated `add`. -/
def VectorIndex.addBatch (idx : VectorIndex) (pairs : List (List ℤ × Chunk)) : VectorIndex :=
  pairs.foldl (fun i p => i.add p.1 p.2) idx

/-- An exact representation of the cosine similarity
`dot / (sqrt qNormSq * sqrt vNormSq)` between a query vector and a record
vector: the dot product together with both squared magnitudes. -/
structure ScoreVal where
  dot : ℤ
  qNormSq : ℤ
  vNormSq : ℤ
deriving DecidableEq, Repr

/-- The score of a record vector `v` against a query vector `q`: the exact
representation of their cosine similarity. -/
def mkScore (q v : List ℤ) : ScoreVal := { dot := dotProd q v, qNormSq := normSq q, vNormSq := normSq v }

/-- The sign-preserving square `a * abs a`, strictly monotone on integers and
reals alike. -/
def signedSq (a : ℤ) : ℤ := a * a.natAbs

/-- Numerator of the comparison key of a score: `signedSq dot`, or `0` for a
degenerate (nonpositive squared magnitude) record vector. -/
def ScoreVal.keyNum (s : ScoreVal) : ℤ :=
  if 0 < s.vNormSq then signedSq s.dot else 0

/-- Denominator of the comparison key of a score: the record vector's squared
magnitude, or `1` in the degenerate case. -/
def ScoreVal.keyDen (s : ScoreVal) : ℤ :=
  if 0 < s.vNormSq then s.vNormSq else 1

/-- Comparison of two scores of the same query: `s` scores no higher than
`t`.  Cross-multiplied form of `sign(dot) * dot^2 / vNormSq` comparison, which
for a fixed query orders scores exactly as the real cosine similarities. -/
def ScoreVal.keyLE (s t : ScoreVal) : Prop :=
  s.keyNum * t.keyDen ≤ t.keyNum * s.keyDen

instance (s t : ScoreVal) : Decidable (s.keyLE t) :=
  inferInstanceAs (Decidable (s.keyNum * t.keyDen ≤ t.keyNum * s.keyDen))

/-- A record paired with its score against the current query. -/
structure ScoredRecord where
  record : IndexRecord
  score : ScoreVal
deriving DecidableEq, Repr

/-- Modelled from the spec: the ranking order of search results — descending
score, ties broken by ascending insertion id (earlier-inserted wins). -/
def rankRel (s t : ScoredRecord) : Prop :=
  t.score.keyLE s.score ∧ (¬ s.score.keyLE t.score ∨ s.record.id ≤ t.record.id)

instance : DecidableRel rankRel := fun s t =>
  inferInstanceAs (Decidable (t.score.keyLE s.score ∧ (¬ s.score.keyLE t.score ∨ s.record.id ≤ t.record.id)))

/-- Modelled from the spec: score every stored record against the query and
sort by descending score with ties broken by ascending id. -/
def VectorIndex.ranked (idx : VectorIndex) (q : List ℤ) : List ScoredRecord :=
  List.insertionSort rankRel (idx.records.map (fun r => { record := r, score := mkScore q r.vector }))

/-- Modelled from the spec: a search result `{ chunk, score }`, produced fresh
per query. -/
structure SearchResult where
  chunk : Chunk
  score : ScoreVal
deriving DecidableEq, Repr

/-- Modelled from the spec: `search` returns the top `k` of the ranked
records as `SearchResult`s; on an empty index it returns the empty sequence,
never an error. -/
def VectorIndex.search (idx : VectorIndex) (q : List ℤ) (k : Nat) : List SearchResult :=
  ((idx.ranked q).take k).map (fun s => { chunk := s.record.chunk, score := s.score })

/-! ### The ranking order is a total preorder -/

lemma ScoreVal.keyDen_pos (s : ScoreVal) : 0 < s.keyDen := by
  unfold ScoreVal.keyDen
  split
  · assumption
  · norm_num

lemma ScoreVal.keyLE_total (s t : ScoreVal) : s.keyLE t ∨ t.keyLE s :=
  le_total (s.keyNum * t.keyDen) (t.keyNum * s.keyDen)

lemma ScoreVal.keyLE_trans {s t u : ScoreVal} (h1 : s.keyLE t) (h2 : t.keyLE u) :
    s.keyLE u := by
  have d1 := s.keyDen_pos
  have d2 := t.keyDen_pos
  have d3 := u.keyDen_pos
  unfold ScoreVal.keyLE at h1 h2 ⊢
  nlinarith [mul_le_mul_of_nonneg_right h1 d3.le, mul_le_mul_of_nonneg_right h2 d1.le]

instance : IsTrans ScoredRecord rankRel := by
  constructor
  intro s t u hst htu
  refine ⟨ScoreVal.keyLE_trans htu.1 hst.1, ?_⟩
  by_cases hsu : s.score.keyLE u.score
  · right
    have hst' : s.score.keyLE t.score := ScoreVal.keyLE_trans hsu htu.1
    have htu' : t.score.keyLE u.score := ScoreVal.keyLE_trans hst.1 hsu
    have hid1 : s.record.id ≤ t.record.id := by
      rcases hst.2 with h | h
      · exact absurd hst' h
      · exact h
    have hid2 : t.record.id ≤ u.record.id := by
      rcases htu.2 with h | h
      · exact absurd htu' h
      · exact h
    exact le_trans hid1 hid2
  · exact Or.inl hsu

instance : IsTotal ScoredRecord rankRel := by
  constructor
  intro s t
  by_cases h1 : s.score.keyLE t.score
  · by_cases h2 : t.score.keyLE s.score
    · rcases le_total s.record.id t.record.id with hid | hid
      · exact Or.inl ⟨h2, Or.inr hid⟩
      · exact Or.inr ⟨h1, Or.inr hid⟩
    · exact Or.inr ⟨h1, Or.inl h2⟩
  · rcases ScoreVal.keyLE_total s.score t.score with h | h
    · exact absurd h h1
    · exact Or.inl ⟨h, Or.inl h1⟩

/-! ## Process state, shared store and service functions
(from `services/langchain.ts`) -/

/-- The process-wide mutable state of `services/langchain.ts`: the module
variable `let vectorStorePromise: Promise<HNSWLib> | null = null`. -/
structure ProcState where
  vectorStorePromise : Option VectorIndex
deriving DecidableEq, Repr

/-- The state at module load: no vector store has been created yet. -/
def startState : ProcState := { vectorStorePromise := none }

/-- From `services/langchain.ts`: `getVectorStore` returns the shared store,
creating an empty one on first use and caching it in the module variable. -/
def getVectorStore (s : ProcState) : ProcState × VectorIndex :=
  match s.vectorStorePromise with
  | some store => (s, store)
  | none => ({ vectorStorePromise := some VectorIndex.emptyIndex }, VectorIndex.emptyIndex)

/-- The records currently held by the shared store (none before creation). -/
def storeRecords (s : ProcState) : List IndexRecord :=
  match s.vectorStorePromise with
  | some store => store.records
  | none => []

/-- An embedder: text to a numeric vector, or failure (`none`) on upstream
error.  The real embedder is an external network capability; theorems
quantify over it. -/
def Embedder : Type := String → Option (List ℤ)

/-- Modelled from the spec: embed every chunk in order; the first chunk whose
embedding fails aborts the whole batch and its index is reported. -/
def embedAll (embed : Embedder) : List Chunk → Except Nat (List (List ℤ))
  | [] => .ok []
  | c :: cs =>
    match embed c.content with
    | none => .error 0
    | some v =>
      match embedAll embed cs with
      | .error i => .error (i + 1)
      | .ok vs => .ok (v :: vs)

/-- Error kinds surfaced by the service layer. -/
inductive CoreError where
  | embeddingFailure (chunkIdx : Nat)
  | queryEmbeddingFailure
  | transcriptError (msg : String)
deriving DecidableEq, Repr

/-- From `services/langchain.ts`: `addDocumentsToStore` obtains the shared
store (creating it if needed) and adds the documents; the store's
`addDocuments` (library code) is modelled from the spec as embed-then-append
with no partial writes. -/
def addDocumentsToStore (embed : Embedder) (docs : List Chunk) (s : ProcState) :
    ProcState × Except CoreError Unit :=
  let p := getVectorStore s
  match embedAll embed docs with
  | .error i => (p.1, .error (.embeddingFailure i))
  | .ok vecs =>
    ({ vectorStorePromise := some (p.2.addBatch (vecs.zip docs)) }, .ok ())

/-- From `services/langchain.ts`: `similaritySearch` obtains the shared store
(creating it if needed), embeds the query and searches the index; the middle
component records whether the index search was actually invoked. -/
def similaritySearch (embed : Embedder) (q : String) (k : Nat) (s : ProcState) :
    ProcState × Bool × Except CoreError (List SearchResult) :=
  let p := getVectorStore s
  match embed q with
  | none => (p.1, false, .error .queryEmbeddingFailure)
  | some v => (p.1, true, .ok (p.2.search v k))

/-! ## Route handlers (from the `app/api` route sources) -/

/-- Outcome of an ingestion route: the 200 payload `{ ok, added }`, a 400
validation error, or a 500 with the caught error. -/
inductive IngestOutcome where
  | success (added : Nat)
  | clientError (msg : String)
  | serverError (e : CoreError)
deriving DecidableEq, Repr

/-- Shared tail of the three ingestion routes: split the text, add the
documents to the shared store, and answer `{ ok: true, added: docs.length }`;
a thrown error is caught and answered as a 500. -/
def ingestCore (embed : Embedder) (text : String) (s : ProcState) :
    ProcState × IngestOutcome :=
  let docs := splitToDocuments text
  match addDocumentsToStore embed docs s with
  | (s1, .ok _) => (s1, .success docs.length)
  | (s1, .error e) => (s1, .serverError e)

/-- From the text-ingestion route: `POST /api/ingest/text`.  The body's
`text` field is `none` when missing or not a string; the route rejects with
400 `Missing text` when `!text || typeof text !== "string" ||
text.trim().length === 0`. -/
def ingestTextPOST (embed : Embedder) (body : Option String) (s : ProcState) :
    ProcState × IngestOutcome :=
  match body with
  | none => (s, .clientError "Missing text")
  | some text =>
    if jsTrim text = "" then (s, .clientError "Missing text")
    else ingestCore embed text s

/-- From the upload route: `POST /api/ingest/upload`.  `file` is `none` when
the form holds no file; the file's text is ingested with no further
validation. -/
def ingestUploadPOST (embed : Embedder) (file : Option String) (s : ProcState) :
    ProcState × IngestOutcome :=
  match file with
  | none => (s, .clientError "No file provided")
  | some text => ingestCore embed text s

/-- From the YouTube route: `POST /api/ingest/youtube`.  `url` is `none` when
missing; `!url` also rejects the empty string.  The fetched transcript is
ingested with no further validation; a transcript fetch error is caught and
answered as a 500. -/
def ingestYoutubePOST (embed : Embedder) (url : Option String)
    (resp : TranscriptResponse) (s : ProcState) : ProcState × IngestOutcome :=
  match url with
  | none => (s, .clientError "Missing url")
  | some u =>
    if u = "" then (s, .clientError "Missing url")
    else
      match fetchTranscriptFromYouTube u resp with
      | .error m => (s, .serverError (.transcriptError m))
      | .ok transcript => ingestCore embed transcript s

/-- Outcome of the query route: the 200 payload `{ results }`, a 400
validation error, or a 500 with the caught error. -/
inductive QueryOutcome where
  | success (results : List SearchResult)
  | clientError (msg : String)
  | serverError (e : CoreError)
deriving DecidableEq, Repr

/-- From the query route: `POST /api/query`.  `query` is `none` when missing;
`!query` also rejects the empty string; `k ?? 4` supplies the default.  The
middle component records whether the index search was invoked. -/
def queryPOST (embed : Embedder) (query : Option String) (k : Option Nat)
    (s : ProcState) : ProcState × Bool × QueryOutcome :=
  match query with
  | none => (s, false, .clientError "Missing query")
  | some q =>
    if q = "" then (s, false, .clientError "Missing query")
    else
      match similaritySearch embed q (k.getD 4) s with
      | (s1, inv, .ok rs) => (s1, inv, .success rs)
      | (s1, inv, .error e) => (s1, inv, .serverError e)

/-! ## Auxiliary definitions used by the specification statements -/

/-- The real cosine similarity represented by `s` is at most the one
represented by `t`: `dot / (sqrt qNormSq * sqrt vNormSq)` compared in `ℝ`. -/
def ScoreVal.realLE (s t : ScoreVal) : Prop :=
  (s.dot : ℝ) / (Real.sqrt (s.qNormSq : ℝ) * Real.sqrt (s.vNormSq : ℝ)) ≤
  (t.dot : ℝ) / (Real.sqrt (t.qNormSq : ℝ) * Real.sqrt (t.vNormSq : ℝ))

/-- The real cosine similarity represented by `s` is strictly below `t`'s. -/
def ScoreVal.realLT (s t : ScoreVal) : Prop :=
  (s.dot : ℝ) / (Real.sqrt (s.qNormSq : ℝ) * Real.sqrt (s.vNormSq : ℝ)) <
  (t.dot : ℝ) / (Real.sqrt (t.qNormSq : ℝ) * Real.sqrt (t.vNormSq : ℝ))

/-- The two scores represent equal real cosine similarities. -/
def ScoreVal.realEqv (s t : ScoreVal) : Prop :=
  (s.dot : ℝ) / (Real.sqrt (s.qNormSq : ℝ) * Real.sqrt (s.vNormSq : ℝ)) =
  (t.dot : ℝ) / (Real.sqrt (t.qNormSq : ℝ) * Real.sqrt (t.vNormSq : ℝ))

/-- `s` is ranked no later than `t`: strictly higher real cosine score, or
equal real score and no larger insertion id. -/
def cosineBefore (s t : ScoredRecord) : Prop :=
  t.score.realLT s.score ∨ (s.score.realEqv t.score ∧ s.record.id ≤ t.record.id)

/-- Is this JSON value an array? -/
def JValue.isArr : JValue → Bool
  | .jarr _ => true
  | _ => false

/-- Did the transcript fetch fail? -/
def isErr (r : Except String String) : Bool :=
  match r with
  | .error _ => true
  | .ok _ => false

/-- `a` and `b` occur next to each other (in either order) in the list. -/
def adjacentIn (l : List Nat) (a b : Nat) : Prop :=
  (a, b) ∈ l.zip l.tail ∨ (b, a) ∈ l.zip l.tail

instance (l : List Nat) (a b : Nat) : Decidable (adjacentIn l a b) :=
  inferInstanceAs (Decidable (_ ∨ _))

/-- The records created by a batch add starting from a given next id. -/
def buildRecords : Nat → List (List ℤ × Chunk) → List IndexRecord
  | _, [] => []
  | n, p :: ps => { id := n, vector := p.1, chunk := p.2 } :: buildRecords (n + 1) ps

/-- A deterministic stand-in embedder used to instantiate theorems on
concrete inputs. -/
def unitEmbedder : Embedder := fun _ => some [1, 0]

/-- An embedder whose upstream always fails, used to instantiate the
embedding-failure theorems on concrete inputs. -/
def noneEmbedder : Embedder := fun _ => none

/-- A three-record index: records 0 and 2 hold the identical vector `[1,0]`,
record 1 holds `[2,0]` — a different vector with the same cosine similarity
to the query `[1,0]`. -/
def tieIndex : VectorIndex :=
  { records := [ { id := 0, vector := [1, 0], chunk := { content := "a" } },
                 { id := 1, vector := [2, 0], chunk := { content := "b" } },
                 { id := 2, vector := [1, 0], chunk := { content := "c" } } ],
    nextId := 3 }

/-! ## Bridge: the integer comparison key orders scores exactly as the real
cosine similarities -/

lemma mulAbs_lt_mulAbs {t u : ℝ} (h : t < u) : t * |t| < u * |u| := by
  rcases le_or_lt 0 t with ht | ht
  · rw [abs_of_nonneg ht, abs_of_nonneg (le_trans ht h.le)]
    exact mul_self_lt_mul_self ht h
  · rcases le_or_lt 0 u with hu | hu
    · rw [abs_of_neg ht, abs_of_nonneg hu]
      nlinarith
    · rw [abs_of_neg ht, abs_of_neg hu]
      nlinarith

lemma mulAbs_le_mulAbs_iff {t u : ℝ} : t * |t| ≤ u * |u| ↔ t ≤ u := by
  constructor
  · intro h
    by_contra hlt
    push_neg at hlt
    exact absurd h (not_le.mpr (mulAbs_lt_mulAbs hlt))
  · intro h
    rcases eq_or_lt_of_le h with h' | h'
    · rw [h']
    · exact (mulAbs_lt_mulAbs h').le

lemma div_sqrt_mulAbs (a x : ℝ) (hx : 0 < x) :
    (a / Real.sqrt x) * |a / Real.sqrt x| = a * |a| / x := by
  rw [abs_div, abs_of_nonneg (Real.sqrt_nonneg x), div_mul_div_comm,
    Real.mul_self_sqrt hx.le]

/-- For a fixed query of positive squared magnitude and record vectors of
positive squared magnitude, the integer key comparison decides exactly the
comparison of the real cosine similarities. -/
lemma ScoreVal.keyLE_iff_realLE {s t : ScoreVal} (hQ : s.qNormSq = t.qNormSq)
    (hQpos : 0 < s.qNormSq) (hs : 0 < s.vNormSq) (ht : 0 < t.vNormSq) :
    s.keyLE t ↔ s.realLE t := by
  have hsR : (0 : ℝ) < (s.vNormSq : ℝ) := by exact_mod_cast hs
  have htR : (0 : ℝ) < (t.vNormSq : ℝ) := by exact_mod_cast ht
  have hQR : (0 : ℝ) < (s.qNormSq : ℝ) := by exact_mod_cast hQpos
  have hsq : (0 : ℝ) < Real.sqrt (s.vNormSq : ℝ) := Real.sqrt_pos.mpr hsR
  have htq : (0 : ℝ) < Real.sqrt (t.vNormSq : ℝ) := Real.sqrt_pos.mpr htR
  have hQq : (0 : ℝ) < Real.sqrt (s.qNormSq : ℝ) := Real.sqrt_pos.mpr hQR
  have step1 : s.keyLE t ↔
      (s.dot : ℝ) * |(s.dot : ℝ)| * (t.vNormSq : ℝ) ≤
      (t.dot : ℝ) * |(t.dot : ℝ)| * (s.vNormSq : ℝ) := by
    have e1 : s.keyNum = signedSq s.dot := by unfold ScoreVal.keyNum; rw [if_pos hs]
    have e2 : s.keyDen = s.vNormSq := by unfold ScoreVal.keyDen; rw [if_pos hs]
    have e3 : t.keyNum = signedSq t.dot := by unfold ScoreVal.keyNum; rw [if_pos ht]
    have e4 : t.keyDen = t.vNormSq := by unfold ScoreVal.keyDen; rw [if_pos ht]
    unfold ScoreVal.keyLE
    rw [e1, e2, e3, e4, ← Int.cast_le (R := ℝ)]
    push_cast [signedSq, Int.cast_natAbs]
    exact Iff.rfl
  have step2 :
      (s.dot : ℝ) * |(s.dot : ℝ)| * (t.vNormSq : ℝ) ≤
        (t.dot : ℝ) * |(t.dot : ℝ)| * (s.vNormSq : ℝ) ↔
      (s.dot : ℝ) / Real.sqrt (s.vNormSq : ℝ) ≤
        (t.dot : ℝ) / Real.sqrt (t.vNormSq : ℝ) := by
    rw [← div_le_div_iff₀ hsR htR, ← div_sqrt_mulAbs _ _ hsR, ← div_sqrt_mulAbs _ _ htR,
      mulAbs_le_mulAbs_iff]
  have step3 :
      (s.dot : ℝ) / Real.sqrt (s.vNormSq : ℝ) ≤
        (t.dot : ℝ) / Real.sqrt (t.vNormSq : ℝ) ↔ s.realLE t := by
    unfold ScoreVal.realLE
    rw [← hQ, div_le_div_iff₀ hsq htq, div_le_div_iff₀ (mul_pos hQq hsq) (mul_pos hQq htq)]
    constructor
    · intro h
      nlinarith
    · intro h
      nlinarith
  exact (step1.trans step2).trans step3

/-- The ranking relation used by the sort implies the specification's
ordering by real cosine score with ties broken by ascending id. -/
lemma rankRel_cosineBefore {s t : ScoredRecord}
    (hQ : s.score.qNormSq = t.score.qNormSq) (hQpos : 0 < s.score.qNormSq)
    (hs : 0 < s.score.vNormSq) (ht : 0 < t.score.vNormSq)
    (h : rankRel s t) : cosineBefore s t := by
  have hQpos' : 0 < t.score.qNormSq := hQ ▸ hQpos
  have hts : t.score.realLE s.score :=
    (ScoreVal.keyLE_iff_realLE hQ.symm hQpos' ht hs).mp h.1
  by_cases hst : s.score.keyLE t.score
  · right
    have hst' : s.score.realLE t.score :=
      (ScoreVal.keyLE_iff_realLE hQ hQpos hs ht).mp hst
    refine ⟨le_antisymm hst' hts, ?_⟩
    rcases h.2 with hn | hid
    · exact absurd hst hn
    · exact hid
  · left
    have hst' : ¬ s.score.realLE t.score := fun c =>
      hst ((ScoreVal.keyLE_iff_realLE hQ hQpos hs ht).mpr c)
    exact lt_of_le_not_le hts hst'

/-! ## Supporting lemmas about the splitter, the store and embedding -/

lemma splitToDocuments_trim_empty {t : String} (h : jsTrim t = "") :
    splitToDocuments t = [] := by
  simp [splitToDocuments, recursiveSplit, h]

lemma getVectorStore_records (s : ProcState) :
    (getVectorStore s).2.records = storeRecords s := by
  rcases s with ⟨_ | store⟩ <;> rfl

lemma getVectorStore_fst_records (s : ProcState) :
    storeRecords (getVectorStore s).1 = storeRecords s := by
  rcases s with ⟨_ | store⟩ <;> rfl

lemma getVectorStore_some {s : ProcState} {store : VectorIndex}
    (h : s.vectorStorePromise = some store) : getVectorStore s = (s, store) := by
  rcases s with ⟨p⟩
  cases h
  rfl

lemma VectorIndex.addBatch_eq :
    ∀ (pairs : List (List ℤ × Chunk)) (idx : VectorIndex),
      idx.addBatch pairs =
        { records := idx.records ++ buildRecords idx.nextId pairs,
          nextId := idx.nextId + pairs.length } := by
  intro pairs
  induction pairs with
  | nil => intro idx; simp [VectorIndex.addBatch, buildRecords]
  | cons p ps ih =>
    intro idx
    have h1 : idx.addBatch (p :: ps) = (idx.add p.1 p.2).addBatch ps := rfl
    rw [h1, ih]
    simp only [VectorIndex.add, buildRecords, VectorIndex.mk.injEq]
    constructor
    · simp [List.append_assoc]
    · simp [List.length_cons]
      omega

lemma buildRecords_proj :
    ∀ (n : Nat) (pairs : List (List ℤ × Chunk)),
      (buildRecords n pairs).map (fun r => (r.vector, r.chunk)) = pairs := by
  intro n pairs
  induction pairs generalizing n with
  | nil => rfl
  | cons p ps ih => simp [buildRecords, ih]

lemma buildRecords_length :
    ∀ (n : Nat) (pairs : List (List ℤ × Chunk)),
      (buildRecords n pairs).length = pairs.length := by
  intro n pairs
  induction pairs generalizing n with
  | nil => rfl
  | cons p ps ih => simp [buildRecords, ih]

lemma embedAll_ok_length {embed : Embedder} :
    ∀ {docs : List Chunk} {vecs : List (List ℤ)},
      embedAll embed docs = .ok vecs → vecs.length = docs.length := by
  intro docs
  induction docs with
  | nil =>
    intro vecs h
    simp [embedAll] at h
    simp [← h]
  | cons c cs ih =>
    intro vecs h
    rcases hc : embed c.content with _ | v
    · simp [embedAll, hc] at h
    · rcases hr : embedAll embed cs with i | vs
      · simp [embedAll, hc, hr] at h
      · simp [embedAll, hc, hr] at h
        simp [← h, ih hr]

lemma embedAll_error_spec {embed : Embedder} :
    ∀ {docs : List Chunk} {i : Nat},
      embedAll embed docs = .error i →
        i < docs.length ∧
        (∃ c, docs[i]? = some c ∧ embed c.content = none) ∧
        (∀ j, j < i → ∀ c, docs[j]? = some c → embed c.content ≠ none) := by
  intro docs
  induction docs with
  | nil => intro i h; simp [embedAll] at h
  | cons c cs ih =>
    intro i h
    rcases hc : embed c.content with _ | v
    · simp [embedAll, hc] at h
      refine ⟨by simp [← h], ⟨c, by simp [← h], hc⟩, ?_⟩
      intro j hj
      omega
    · rcases hr : embedAll embed cs with i' | vs
      · simp [embedAll, hc, hr] at h
        rcases ih hr with ⟨hlen, ⟨c', hc', hfail⟩, hmin⟩
        refine ⟨by simp; omega, ⟨c', by simpa [← h] using hc', hfail⟩, ?_⟩
        intro j hj d hd
        rcases j with _ | j'
        · simp at hd
          rw [← hd]
          simp [hc]
        · simp at hd
          exact hmin j' (by omega) d hd
      · simp [embedAll, hc, hr] at h

/-! ## Claim C10: the YouTube transcript fetcher -/

/-- Claim C10: the transcript fetcher fails exactly when no video id can be
extracted from the URL (via a `?v=`-style query parameter or a `youtu.be/`
path), the transcript service responds non-ok, or the response body is not an
array; otherwise it returns each item's text field - the empty string for
items that are not objects with a text field - joined with single spaces. -/
theorem rag_c10_transcript_fetcher (url : String) (resp : TranscriptResponse) :
    (isErr (fetchTranscriptFromYouTube url resp) = true ↔
      (extractVideoId url = none ∨ resp.ok = false ∨ resp.body.isArr = false))
    ∧ (∀ items v, extractVideoId url = some v → resp.ok = true →
        resp.body = .jarr items →
        fetchTranscriptFromYouTube url resp =
          .ok (String.intercalate " " (items.map itemText)))
    ∧ (∀ item, (∀ kvs, item ≠ JValue.jobj kvs) → itemText item = "")
    ∧ (∀ kvs, kvs.lookup "text" = none → itemText (JValue.jobj kvs) = "") := by
  refine ⟨?_, ?_, ?_, ?_⟩
  · rcases hvid : extractVideoId url with _ | v
    · simp [fetchTranscriptFromYouTube, hvid, isErr]
    · rcases hok : resp.ok with _ | _
      · simp [fetchTranscriptFromYouTube, hvid, hok, isErr]
      · rcases hb : resp.body with _ | b | n | str | items | kvs <;>
          simp [fetchTranscriptFromYouTube, hvid, hok, hb, isErr, JValue.isArr]
  · intro items v hv hok hb
    simp [fetchTranscriptFromYouTube, hv, hok, hb]
  · intro item hno
    cases item with
    | jobj kvs => exact absurd rfl (hno kvs)
    | jnull => rfl
    | jbool b => rfl
    | jnum n => rfl
    | jstr s => rfl
    | jarr xs => rfl
  · intro kvs h
    simp [itemText, h]

/-- Witness for C10 at a concrete URL and response: a `youtu.be` URL, an ok
response with a three-item array (two objects with text fields, one plain
number), joined with single spaces. -/
theorem rag_c10_witness :
    fetchTranscriptFromYouTube "https://youtu.be/abc"
      { ok := true,
        body := .jarr [.jobj [("text", .jstr "hello")], .jnum 7,
                       .jobj [("text", .jstr "world")]] } =
      .ok "hello  world" := by
  have h := (rag_c10_transcript_fetcher "https://youtu.be/abc"
      { ok := true,
        body := .jarr [.jobj [("text", .jstr "hello")], .jnum 7,
                       .jobj [("text", .jstr "world")]] }).2.1
    [.jobj [("text", .jstr "hello")], .jnum 7, .jobj [("text", .jstr "world")]]
    "abc" (by decide) rfl rfl
  rw [h]
  rfl

/-! ## Claim C6: search on an empty index -/

/-- Claim C6: for every positive k, search on an index holding zero records
returns the empty sequence; search is a total function, so it never fails
with an error. -/
theorem rag_c6_empty_search (idx : VectorIndex) (q : List ℤ) (k : Nat)
    (hrec : idx.records = []) (_hk : 0 < k) : idx.search q k = [] := by
  simp [VectorIndex.search, VectorIndex.ranked, hrec, List.insertionSort]

/-- Witness for C6: searching the empty index with the default k = 4. -/
theorem rag_c6_witness : 0 < 4 ∧ VectorIndex.emptyIndex.search [1, 0] 4 = [] :=
  ⟨by decide, rag_c6_empty_search VectorIndex.emptyIndex [1, 0] 4 rfl (by decide)⟩

/-! ## Claim C1: query validation -/

/-- Claim C1 (amended): the query route rejects with the 400 validation error
and skips the index search exactly when the query text is missing or the
empty string (JavaScript falsy); any other text - in particular
whitespace-only text, which is not trimmed - is accepted and, when its
embedding succeeds, the index search over the shared store is invoked. -/
theorem rag_c1_query_validation (embed : Embedder) (qopt : Option String)
    (k : Option Nat) (s : ProcState) :
    ((qopt = none ∨ qopt = some "") →
      queryPOST embed qopt k s = (s, false, .clientError "Missing query"))
    ∧ (∀ q v, qopt = some q → q ≠ "" → embed q = some v →
        (queryPOST embed qopt k s).2.1 = true ∧
        (queryPOST embed qopt k s).2.2 =
          .success ((getVectorStore s).2.search v (k.getD 4))) := by
  constructor
  · rintro (rfl | rfl)
    · rfl
    · simp [queryPOST]
  · rintro q v rfl hq hv
    simp [queryPOST, hq, similaritySearch, hv]

/-- Witness for C1: a missing query is rejected without searching; the
nonempty query "ask" invokes the index search. -/
theorem rag_c1_witness :
    queryPOST unitEmbedder none none startState =
      (startState, false, .clientError "Missing query") ∧
    (queryPOST unitEmbedder (some "ask") none startState).2.1 = true := by
  constructor
  · exact (rag_c1_query_validation unitEmbedder none none startState).1 (Or.inl rfl)
  · exact ((rag_c1_query_validation unitEmbedder (some "ask") none startState).2
      "ask" [1, 0] rfl (by decide) rfl).1

/-- Counterexample for C1 as stated: the whitespace-only query "   " is NOT
rejected as empty input - the route invokes the index search and answers 200
with results. -/
theorem rag_c1_counterexample :
    (queryPOST unitEmbedder (some "   ") none startState).2.1 = true ∧
    (queryPOST unitEmbedder (some "   ") none startState).2.2 = .success [] := by
  decide

/-! ## Claim C4: empty input at the ingestion entry points -/

lemma addDocumentsToStore_nil (embed : Embedder) (s : ProcState) :
    addDocumentsToStore embed [] s = ((getVectorStore s).1, .ok ()) := by
  rcases s with ⟨_ | store⟩ <;> rfl

lemma ingestCore_of_no_docs {embed : Embedder} {t : String} (s : ProcState)
    (h : splitToDocuments t = []) :
    ingestCore embed t s = ((getVectorStore s).1, .success 0) := by
  simp only [ingestCore, h, addDocumentsToStore_nil, List.length_nil]

/-- Claim C4 (amended): only the pasted-text entry point validates emptiness.
Missing or empty-after-trim text there is rejected 400 with nothing added;
the upload and transcript entry points accept text that is empty after
trimming and succeed with zero chunks added, leaving the store's records
unchanged. -/
theorem rag_c4_empty_ingest (embed : Embedder) (s : ProcState) :
    ingestTextPOST embed none s = (s, .clientError "Missing text")
    ∧ (∀ t, jsTrim t = "" →
        ingestTextPOST embed (some t) s = (s, .clientError "Missing text"))
    ∧ (∀ t, jsTrim t = "" →
        ingestUploadPOST embed (some t) s = ((getVectorStore s).1, .success 0) ∧
        storeRecords (getVectorStore s).1 = storeRecords s)
    ∧ (∀ url resp transcript, url ≠ "" →
        fetchTranscriptFromYouTube url resp = .ok transcript →
        jsTrim transcript = "" →
        ingestYoutubePOST embed (some url) resp s = ((getVectorStore s).1, .success 0) ∧
        storeRecords (getVectorStore s).1 = storeRecords s) := by
  refine ⟨rfl, ?_, ?_, ?_⟩
  · intro t ht
    simp [ingestTextPOST, ht]
  · intro t ht
    refine ⟨?_, getVectorStore_fst_records s⟩
    simp only [ingestUploadPOST]
    exact ingestCore_of_no_docs s (splitToDocuments_trim_empty ht)
  · intro url resp transcript hurl hfetch htrim
    refine ⟨?_, getVectorStore_fst_records s⟩
    simp only [ingestYoutubePOST, if_neg hurl, hfetch]
    exact ingestCore_of_no_docs s (splitToDocuments_trim_empty htrim)

/-- Witness for C4 (amended): whitespace-only pasted text is rejected with
the validation error; a whitespace-only uploaded file is accepted with zero
chunks added. -/
theorem rag_c4_witness :
    ingestTextPOST unitEmbedder (some "   ") startState =
      (startState, .clientError "Missing text") ∧
    ingestUploadPOST unitEmbedder (some " ") startState =
      ((getVectorStore startState).1, .success 0) := by
  refine ⟨(rag_c4_empty_ingest unitEmbedder startState).2.1 "   " (by decide),
    ((rag_c4_empty_ingest unitEmbedder startState).2.2.1 " " (by decide)).1⟩

/-- Counterexample for C4 as stated: uploading a file whose text is empty
does NOT fail with a validation error - the upload route succeeds with
`added = 0`. -/
theorem rag_c4_counterexample :
    ingestUploadPOST unitEmbedder (some "") startState =
      ({ vectorStorePromise := some VectorIndex.emptyIndex }, .success 0) := by
  decide

/-! ## Claim C5: embedding failure aborts the whole ingestion -/

/-- Claim C5: if the embedding step fails for any chunk of an ingestion
call, the whole call fails with an error reporting the index of the first
failing chunk (every earlier chunk embedded successfully), and the store's
records are unchanged - no partial writes. -/
theorem rag_c5_no_partial_writes (embed : Embedder) (text : String)
    (s : ProcState) (i : Nat)
    (h : embedAll embed (splitToDocuments text) = .error i) :
    (ingestCore embed text s).2 = .serverError (.embeddingFailure i)
    ∧ storeRecords (ingestCore embed text s).1 = storeRecords s
    ∧ i < (splitToDocuments text).length
    ∧ (∃ c, (splitToDocuments text)[i]? = some c ∧ embed c.content = none)
    ∧ (∀ j, j < i → ∀ c, (splitToDocuments text)[j]? = some c →
        embed c.content ≠ none) := by
  have hspec := embedAll_error_spec h
  have hcore : ingestCore embed text s =
      ((getVectorStore s).1, .serverError (.embeddingFailure i)) := by
    simp only [ingestCore, addDocumentsToStore, h]
  rw [hcore]
  exact ⟨rfl, getVectorStore_fst_records s, hspec.1, hspec.2.1, hspec.2.2⟩

/-- Witness for C5: a failing embedder on the one-chunk text "hello" fails
the call reporting chunk 0 and leaves the (empty) store unchanged. -/
theorem rag_c5_witness :
    (ingestCore noneEmbedder "hello" startState).2 =
      .serverError (.embeddingFailure 0) ∧
    storeRecords (ingestCore noneEmbedder "hello" startState).1 =
      storeRecords startState := by
  have h := rag_c5_no_partial_writes noneEmbedder "hello" startState 0 rfl
  exact ⟨h.1, h.2.1⟩

/-! ## Claim C7: the lazily created shared store -/

/-- Claim C7: the store is absent at module load and created lazily by the
first operation that needs it; once present it is returned unchanged by every
later call, so all ingestions and queries share the single instance: a
successful ingestion appends exactly its (vector, chunk) pairs to the shared
records, and a query searches exactly the shared store's current records. -/
theorem rag_c7_shared_store :
    startState.vectorStorePromise = none
    ∧ getVectorStore startState =
        ({ vectorStorePromise := some VectorIndex.emptyIndex }, VectorIndex.emptyIndex)
    ∧ (∀ s store, s.vectorStorePromise = some store → getVectorStore s = (s, store))
    ∧ (∀ embed docs s vecs, embedAll embed docs = .ok vecs →
        (storeRecords (addDocumentsToStore embed docs s).1).map
            (fun r => (r.vector, r.chunk)) =
          (storeRecords s).map (fun r => (r.vector, r.chunk)) ++ vecs.zip docs)
    ∧ (∀ embed q k s v, embed q = some v →
        (similaritySearch embed q k s).2.2 = .ok ((getVectorStore s).2.search v k) ∧
        (getVectorStore s).2.records = storeRecords s) := by
  refine ⟨rfl, rfl, ?_, ?_, ?_⟩
  · intro s store h
    exact getVectorStore_some h
  · intro embed docs s vecs hv
    simp only [addDocumentsToStore, hv]
    have h1 : storeRecords
        { vectorStorePromise := some ((getVectorStore s).2.addBatch (vecs.zip docs)) } =
        ((getVectorStore s).2.addBatch (vecs.zip docs)).records := rfl
    rw [h1, VectorIndex.addBatch_eq]
    simp [List.map_append, buildRecords_proj, getVectorStore_records]
  · intro embed q k s v hv
    exact ⟨by simp [similaritySearch, hv], getVectorStore_records s⟩

/-- Witness for C7: a state already holding a store returns it unchanged; a
one-chunk ingestion into the fresh state appends exactly its pair. -/
theorem rag_c7_witness :
    getVectorStore { vectorStorePromise := some tieIndex } =
      ({ vectorStorePromise := some tieIndex }, tieIndex) ∧
    (storeRecords (addDocumentsToStore unitEmbedder [{ content := "hi" }] startState).1).map
        (fun r => (r.vector, r.chunk)) =
      (storeRecords startState).map (fun r => (r.vector, r.chunk)) ++
        [[(1 : ℤ), 0]].zip [{ content := "hi" }] := by
  refine ⟨rag_c7_shared_store.2.2.1 _ tieIndex rfl,
    rag_c7_shared_store.2.2.2.1 unitEmbedder [{ content := "hi" }] startState
      [[(1 : ℤ), 0]] rfl⟩

/-! ## Claims C8 and C9: ingestion counts -/

lemma ingestCore_ok {embed : Embedder} {text : String} {s : ProcState}
    {vecs : List (List ℤ)}
    (h : embedAll embed (splitToDocuments text) = .ok vecs) :
    (ingestCore embed text s).2 = .success (splitToDocuments text).length ∧
    (storeRecords (ingestCore embed text s).1).length =
      (storeRecords s).length + (splitToDocuments text).length := by
  have hlen : vecs.length = (splitToDocuments text).length := embedAll_ok_length h
  simp only [ingestCore, addDocumentsToStore, h]
  refine ⟨trivial, ?_⟩
  have h1 : storeRecords
      { vectorStorePromise :=
          some ((getVectorStore s).2.addBatch (vecs.zip (splitToDocuments text))) } =
      ((getVectorStore s).2.addBatch (vecs.zip (splitToDocuments text))).records := rfl
  rw [h1, VectorIndex.addBatch_eq]
  have h2 : (getVectorStore s).2.records = storeRecords s := getVectorStore_records s
  simp [buildRecords_length, h2, List.length_zip, hlen]

/-- Claim C8: ingesting the same text twice stores its chunks twice - the
add never rejects duplicate content, so the record count after the second
call is the count after the first plus the same chunk count again. -/
theorem rag_c8_no_dedup (embed : Embedder) (text : String) (s : ProcState)
    (vecs : List (List ℤ))
    (h : embedAll embed (splitToDocuments text) = .ok vecs) :
    (ingestCore embed text s).2 = .success (splitToDocuments text).length
    ∧ (ingestCore embed text (ingestCore embed text s).1).2 =
        .success (splitToDocuments text).length
    ∧ (storeRecords (ingestCore embed text s).1).length =
        (storeRecords s).length + (splitToDocuments text).length
    ∧ (storeRecords (ingestCore embed text (ingestCore embed text s).1).1).length =
        (storeRecords (ingestCore embed text s).1).length +
          (splitToDocuments text).length :=
  ⟨(ingestCore_ok h).1, (ingestCore_ok h).1, (ingestCore_ok h).2, (ingestCore_ok h).2⟩

/-- Witness for C8: ingesting "hi" twice into the fresh state adds its one
chunk twice. -/
theorem rag_c8_witness :
    (storeRecords (ingestCore unitEmbedder "hi" startState).1).length =
      (storeRecords startState).length + (splitToDocuments "hi").length ∧
    (storeRecords
        (ingestCore unitEmbedder "hi" (ingestCore unitEmbedder "hi" startState).1).1).length =
      (storeRecords (ingestCore unitEmbedder "hi" startState).1).length +
        (splitToDocuments "hi").length := by
  have h := rag_c8_no_dedup unitEmbedder "hi" startState [[1, 0]] rfl
  exact ⟨h.2.2.1, h.2.2.2⟩

/-- Claim C9: a successful text ingestion splits with the fixed configuration
chunkSize = 1000 and chunkOverlap = 200, answers exactly the number of chunks
the splitter produced, and adds exactly that many records to the index. -/
theorem rag_c9_ingest_count (embed : Embedder) (t : String) (s : ProcState)
    (vecs : List (List ℤ)) (ht : jsTrim t ≠ "")
    (h : embedAll embed (splitToDocuments t) = .ok vecs) :
    splitToDocuments t = (recursiveSplit 1000 200 t).map (fun c => { content := c })
    ∧ (ingestTextPOST embed (some t) s).2 = .success (splitToDocuments t).length
    ∧ (storeRecords (ingestTextPOST embed (some t) s).1).length =
        (storeRecords s).length + (splitToDocuments t).length := by
  have hroute : ingestTextPOST embed (some t) s = ingestCore embed t s := by
    simp [ingestTextPOST, ht]
  rw [hroute]
  exact ⟨rfl, (ingestCore_ok h).1, (ingestCore_ok h).2⟩

/-- Witness for C9: ingesting "hi" through the text route answers its one
chunk and adds one record. -/
theorem rag_c9_witness :
    (ingestTextPOST unitEmbedder (some "hi") startState).2 =
      .success (splitToDocuments "hi").length ∧
    (storeRecords (ingestTextPOST unitEmbedder (some "hi") startState).1).length =
      (storeRecords startState).length + (splitToDocuments "hi").length := by
  have h := rag_c9_ingest_count unitEmbedder "hi" startState [[1, 0]]
    (by decide) rfl
  exact ⟨h.2.1, h.2.2⟩

/-! ## Claims C2 and C3: search ordering and result contents -/

lemma mem_ranked {idx : VectorIndex} {q : List ℤ} {s : ScoredRecord}
    (h : s ∈ idx.ranked q) :
    s.record ∈ idx.records ∧ s.score = mkScore q s.record.vector := by
  have hperm := List.perm_insertionSort rankRel
    (idx.records.map (fun r => ({ record := r, score := mkScore q r.vector } : ScoredRecord)))
  have hmem : s ∈ idx.records.map
      (fun r => ({ record := r, score := mkScore q r.vector } : ScoredRecord)) :=
    hperm.mem_iff.mp h
  rcases List.mem_map.mp hmem with ⟨r, hr, rfl⟩
  exact ⟨hr, rfl⟩

/-- Claim C3: every element of a successful query's result sequence is a
SearchResult carrying a stored record's chunk together with a score equal to
the similarity of the query vector and that record's vector. -/
theorem rag_c3_results_carry_scores (idx : VectorIndex) (q : List ℤ) (k : Nat)
    (res : SearchResult) (h : res ∈ idx.search q k) :
    ∃ r ∈ idx.records, res.chunk = r.chunk ∧ res.score = mkScore q r.vector := by
  rcases List.mem_map.mp h with ⟨sr, hsr, rfl⟩
  have hsr' : sr ∈ idx.ranked q := (List.take_sublist k _).mem hsr
  rcases mem_ranked hsr' with ⟨hmem, hscore⟩
  exact ⟨sr.record, hmem, rfl, hscore⟩

/-- Witness for C3: the first result of a search over the three-record index
carries the chunk and exact score of stored record 0. -/
theorem rag_c3_witness :
    (({ chunk := { content := "a" }, score := ⟨1, 1, 1⟩ } : SearchResult) ∈
        tieIndex.search [1, 0] 4) ∧
    ∃ r ∈ tieIndex.records,
      ({ content := "a" } : Chunk) = r.chunk ∧
      (⟨1, 1, 1⟩ : ScoreVal) = mkScore [1, 0] r.vector := by
  have hm : ({ chunk := { content := "a" }, score := ⟨1, 1, 1⟩ } : SearchResult) ∈
      tieIndex.search [1, 0] 4 := by decide
  exact ⟨hm, rag_c3_results_carry_scores tieIndex [1, 0] 4 _ hm⟩

/-- Claim C2 (amended): search scores every stored record against the query
(the ranking is a permutation of the records, each paired with the cosine
score of its vector), the ranking is sorted by descending real cosine score
with ties broken by ascending insertion id, records holding identical vectors
receive equal scores, and `search` returns the top k of the ranking.  The
original claim's adjacency of identical-vector records does not hold in
general: a record with a different vector but an equal score can sit between
them in id order (see the counterexample). -/
theorem rag_c2_search_ordering (idx : VectorIndex) (q : List ℤ) (k : Nat)
    (hq : 0 < normSq q) (hv : ∀ r ∈ idx.records, 0 < normSq r.vector) :
    List.Pairwise cosineBefore (idx.ranked q)
    ∧ ((idx.ranked q).map (fun s => s.record)).Perm idx.records
    ∧ (∀ s ∈ idx.ranked q, s.score = mkScore q s.record.vector)
    ∧ (∀ s ∈ idx.ranked q, ∀ t ∈ idx.ranked q,
        s.record.vector = t.record.vector → s.score = t.score)
    ∧ idx.search q k =
        ((idx.ranked q).take k).map
          (fun s => { chunk := s.record.chunk, score := s.score }) := by
  have hsorted : List.Pairwise rankRel (idx.ranked q) :=
    List.sorted_insertionSort rankRel _
  have hperm := List.perm_insertionSort rankRel
    (idx.records.map (fun r => ({ record := r, score := mkScore q r.vector } : ScoredRecord)))
  refine ⟨?_, ?_, ?_, ?_, rfl⟩
  · apply List.Pairwise.imp_of_mem ?_ hsorted
    intro a b ha hb hab
    rcases mem_ranked ha with ⟨hamem, hascore⟩
    rcases mem_ranked hb with ⟨hbmem, hbscore⟩
    apply rankRel_cosineBefore ?_ ?_ ?_ ?_ hab
    · rw [hascore, hbscore]
      rfl
    · rw [hascore]
      exact hq
    · rw [hascore]
      exact hv _ hamem
    · rw [hbscore]
      exact hv _ hbmem
  · have hmaps := hperm.map (fun s : ScoredRecord => s.record)
    rw [List.map_map,
      show ((fun s : ScoredRecord => s.record) ∘
          fun r : IndexRecord => ({ record := r, score := mkScore q r.vector } : ScoredRecord)) =
        id from rfl,
      List.map_id] at hmaps
    exact hmaps
  · intro s hs
    exact (mem_ranked hs).2
  · intro s hs t ht hvec
    rw [(mem_ranked hs).2, (mem_ranked ht).2, hvec]

/-- Witness for C2 (amended) on the three-record index and query [1,0]. -/
theorem rag_c2_witness :
    0 < normSq [1, 0] ∧ List.Pairwise cosineBefore (tieIndex.ranked [1, 0]) :=
  ⟨by decide, (rag_c2_search_ordering tieIndex [1, 0] 3 (by decide) (by decide)).1⟩

/-- Counterexample for C2 as stated: with query [1,0], records 0 and 2 hold
the identical vector [1,0] and record 1 the different vector [2,0]; all three
real cosine scores are equal, so the ascending-id tie-break places record 1
strictly between the identical-vector records - they are not adjacent in the
returned ranking. -/
theorem rag_c2_counterexample :
    ((tieIndex.ranked [1, 0]).map (fun s => s.record.id)) = [0, 1, 2]
    ∧ tieIndex.records.map (fun r => r.vector) = [[1, 0], [2, 0], [1, 0]]
    ∧ ((tieIndex.ranked [1, 0]).map (fun s => s.score)) =
        [⟨1, 1, 1⟩, ⟨2, 1, 4⟩, ⟨1, 1, 1⟩]
    ∧ ScoreVal.realEqv ⟨1, 1, 1⟩ ⟨2, 1, 4⟩
    ∧ ¬ adjacentIn ((tieIndex.ranked [1, 0]).map (fun s => s.record.id)) 0 2 := by
  refine ⟨by decide, by decide, by decide, ?_, by decide⟩
  unfold ScoreVal.realEqv
  have h4 : Real.sqrt (4 : ℝ) = 2 := by
    rw [show (4 : ℝ) = (2 : ℝ) ^ 2 by norm_num, Real.sqrt_sq (by norm_num)]
  norm_num [h4, Real.sqrt_one]

end Rag
